import Mathlib

/-!
Verification of the credential-tree and kit engine of edge-core-js,
centred on the PIN factor (src/core/login/pin2.js) and the login server
validation (src/core/root.js).  Byte buffers (Uint8Array) are modelled as
lists of naturals; the crypto, codec, network and disk collaborators that
the spec declares out of scope are modelled symbolically.
-/

/-- Byte buffers (Uint8Array in the source). -/
abbrev Bytes := List Nat

/-- Modelled from the spec: the authenticated-encryption envelope (Box)
produced by the crypto collaborator.  Symbolic model: the box remembers the
plaintext and the key, and decryption succeeds exactly under the same key. -/
structure Box where
  data : Bytes
  key : Bytes
deriving DecidableEq, Repr

/-- Modelled from the spec: the encryption side of the crypto collaborator. -/
def encrypt (data : Bytes) (key : Bytes) : Box := ⟨data, key⟩

/-- Modelled from the spec: the decryption side of the crypto collaborator;
fails (the source throws) when the key does not match. -/
def decrypt (box : Box) (key : Bytes) : Option Bytes :=
  if box.key = key then some box.data else none

/-- Modelled from the spec: the utf8 codec collaborator turning a string into
bytes, represented by the list of unicode code points. -/
def utf8parse (s : String) : Bytes := s.data.map Char.toNat

/-- Modelled from the spec: fixUsername, the username normalization from
login-selectors.js (not under src/); lower-cases and strips surrounding
spaces. -/
def fixUsername (username : String) : String :=
  String.mk
    ((((username.data.map Char.toLower).dropWhile (fun c => c = ' ')).reverse.dropWhile
      (fun c => c = ' ')).reverse)

/-- pin2Id from pin2.js: HMAC of the normalized username under the pin2Key.
The keyed hash hmacSha256 is the opaque crypto collaborator, taken as a
parameter. -/
def pin2Id (hmacSha256 : Bytes → Bytes → Bytes) (pin2Key : Bytes) (username : String) : Bytes :=
  hmacSha256 (utf8parse (fixUsername username)) pin2Key

/-- pin2Auth from pin2.js: HMAC of the pin under the pin2Key. -/
def pin2Auth (hmacSha256 : Bytes → Bytes → Bytes) (pin2Key : Bytes) (pin : String) : Bytes :=
  hmacSha256 (utf8parse pin) pin2Key

/-- LoginStash from login-stash.js, restricted to the fields the PIN factor
reads: one node per account with the cached PIN credential material. -/
inductive LoginStash where
  | node (loginId : Bytes) (appId : String) (username : Option String)
      (pin2Key : Option Bytes) (pin2TextBox : Option Box)
      (children : List LoginStash)

def LoginStash.loginId : LoginStash → Bytes
  | .node i _ _ _ _ _ => i

def LoginStash.appId : LoginStash → String
  | .node _ a _ _ _ _ => a

def LoginStash.username : LoginStash → Option String
  | .node _ _ u _ _ _ => u

def LoginStash.pin2Key : LoginStash → Option Bytes
  | .node _ _ _ k _ _ => k

def LoginStash.pin2TextBox : LoginStash → Option Box
  | .node _ _ _ _ b _ => b

def LoginStash.children : LoginStash → List LoginStash
  | .node _ _ _ _ _ cs => cs

mutual

/-- Modelled from the spec: searchTree from login.js (not under src/),
pre-order traversal returning the first node satisfying the predicate. -/
def searchTree (predicate : LoginStash → Bool) : LoginStash → Option LoginStash
  | .node i a u k b cs =>
    if predicate (.node i a u k b cs) then some (.node i a u k b cs)
    else searchList predicate cs

/-- Modelled from the spec: the child loop of searchTree. -/
def searchList (predicate : LoginStash → Bool) : List LoginStash → Option LoginStash
  | [] => none
  | s :: rest =>
    match searchTree predicate s with
    | some out => some out
    | none => searchList predicate rest

end

mutual

/-- The pre-order node list of a stash tree: the node, then its children
left to right, recursively. -/
def preorderS : LoginStash → List LoginStash
  | .node i a u k b cs => .node i a u k b cs :: preorderListS cs

/-- Pre-order node list of a forest of stash trees. -/
def preorderListS : List LoginStash → List LoginStash
  | [] => []
  | s :: rest => preorderS s ++ preorderListS rest

end

mutual

theorem searchTree_eq_find (p : LoginStash → Bool) :
    (t : LoginStash) → searchTree p t = (preorderS t).find? p
  | .node i a u k b cs => by
    rw [searchTree, preorderS, List.find?_cons]
    cases h : p (.node i a u k b cs) with
    | false => simpa using searchList_eq_find p cs
    | true => simp

theorem searchList_eq_find (p : LoginStash → Bool) :
    (ts : List LoginStash) → searchList p ts = (preorderListS ts).find? p
  | [] => rfl
  | s :: rest => by
    rw [searchList, preorderListS, List.find?_append]
    rw [searchTree_eq_find p s, searchList_eq_find p rest]
    cases (preorderS s).find? p <;> simp

end

/-- findPin2Stash from pin2.js: the root if it carries pin2Key, else the
first pre-order appId match, kept only when that match carries pin2Key. -/
def findPin2Stash (stashTree : LoginStash) (appId : String) : Option LoginStash :=
  if stashTree.pin2Key.isSome then some stashTree
  else
    match searchTree (fun stash => stash.appId == appId) stashTree with
    | some stash => if stash.pin2Key.isSome then some stash else none
    | none => none

/-- The reading of findLocalCredential in claim C2, following the spec words:
root when it carries the key, else the first pre-order descendant whose appId
matches AND which carries pin2Key. -/
def findLocalCredentialSpec (stashTree : LoginStash) (appId : String) : Option LoginStash :=
  if stashTree.pin2Key.isSome then some stashTree
  else
    ((preorderS stashTree).drop 1).find?
      (fun s => s.appId == appId && s.pin2Key.isSome)

/-- Any node returned by findPin2Stash carries a pin2Key. -/
theorem findPin2Stash_pin2Key_isSome {t : LoginStash} {a : String} {s : LoginStash}
    (h : findPin2Stash t a = some s) : s.pin2Key.isSome := by
  unfold findPin2Stash at h
  by_cases hr : t.pin2Key.isSome
  · simp [hr] at h; rwa [← h]
  · simp [hr] at h
    rcases hfind : searchTree (fun stash => stash.appId == a) t with _ | s2
    · rw [hfind] at h; simp at h
    · rw [hfind] at h
      by_cases hk : s2.pin2Key.isSome
      · simp [hk] at h; rwa [← h]
      · simp [hk] at h

/-- Counterexample to claim C2 as stated: root lacks the key, the first
pre-order appId match (child one) lacks the key, a later match (child two)
has one; the source returns none while the claim demands child two. -/
def exStashC2child1 : LoginStash := .node [1] "app" none none none []

/-- The second child of the C2 counterexample tree, carrying the key. -/
def exStashC2child2 : LoginStash := .node [2] "app" none (some [7, 7]) none []

/-- The C2 counterexample tree. -/
def exStashC2 : LoginStash :=
  .node [0] "" (some "bob") none none [exStashC2child1, exStashC2child2]

/-- C2: claim counterexample.  On the tree whose root lacks pin2Key and whose
first pre-order appId match lacks pin2Key while a later match carries one,
findPin2Stash returns none, yet the claim (first pre-order descendant whose
appId matches and which carries pin2Key) demands the second child. -/
theorem findPin2Stash_c2_counterexample :
    findPin2Stash exStashC2 "app" = none ∧
      findLocalCredentialSpec exStashC2 "app" = some exStashC2child2 :=
  ⟨rfl, rfl⟩

/-- C2 (amended): findPin2Stash returns the root when it carries pin2Key;
otherwise it locates the first pre-order node (the root included) whose appId
matches, and returns that node exactly when it carries pin2Key; in every
other case it returns none, even when a later matching node carries a key. -/
theorem findPin2Stash_characterization (stashTree : LoginStash) (appId : String) :
    findPin2Stash stashTree appId =
      if stashTree.pin2Key.isSome then some stashTree
      else
        match (preorderS stashTree).find? (fun s => s.appId == appId) with
        | some s => if s.pin2Key.isSome then some s else none
        | none => none := by
  rw [findPin2Stash, searchTree_eq_find]

/-- C9: pin2Id is deterministic (it is a function) and depends on the
username only through its normalization: equal normalized usernames give
equal pin2Id values, for every keyed-hash collaborator and every key. -/
theorem pin2Id_deterministic (hmacSha256 : Bytes → Bytes → Bytes) (key : Bytes)
    (u1 u2 : String) (h : fixUsername u1 = fixUsername u2) :
    pin2Id hmacSha256 key u1 = pin2Id hmacSha256 key u2 := by
  unfold pin2Id
  rw [h]

/-- C9 witness: two distinct usernames with the same normalization get the
same pin2Id under a concrete keyed hash and key. -/
theorem pin2Id_deterministic_witness :
    fixUsername "Alice " = fixUsername " alice" ∧
      pin2Id (fun d k => d ++ k) [1, 2] "Alice " =
        pin2Id (fun d k => d ++ k) [1, 2] " alice" :=
  ⟨by decide, pin2Id_deterministic (fun d k => d ++ k) [1, 2] "Alice " " alice" (by decide)⟩

/-- LoginTree from login-types.js, restricted to the fields the PIN factor
reads: the decrypted in-memory login node with its master key. -/
inductive LoginTree where
  | node (loginId : Bytes) (loginKey : Bytes) (appId : String)
      (username : Option String) (pin : Option String) (pin2Key : Option Bytes)
      (children : List LoginTree)

def LoginTree.loginId : LoginTree → Bytes
  | .node i _ _ _ _ _ _ => i

def LoginTree.loginKey : LoginTree → Bytes
  | .node _ k _ _ _ _ _ => k

def LoginTree.appId : LoginTree → String
  | .node _ _ a _ _ _ _ => a

def LoginTree.username : LoginTree → Option String
  | .node _ _ _ u _ _ _ => u

def LoginTree.pin : LoginTree → Option String
  | .node _ _ _ _ p _ _ => p

def LoginTree.pin2Key : LoginTree → Option Bytes
  | .node _ _ _ _ _ k _ => k

def LoginTree.children : LoginTree → List LoginTree
  | .node _ _ _ _ _ _ cs => cs

mutual

/-- The pre-order node list of a login tree. -/
def preorderT : LoginTree → List LoginTree
  | .node i k a u p pk cs => .node i k a u p pk cs :: preorderListT cs

/-- Pre-order node list of a forest of login trees. -/
def preorderListT : List LoginTree → List LoginTree
  | [] => []
  | t :: ts => preorderT t ++ preorderListT ts

end

/-- The server body of a POST to /v2/login/pin2 (asChangePin2Payload); a
missing field is sent absent. -/
structure ChangePin2Payload where
  pin2Id : Option Bytes
  pin2Auth : Option Bytes
  pin2Box : Option Box
  pin2KeyBox : Option Box
  pin2TextBox : Option Box
deriving DecidableEq, Repr

/-- The stash patch of a kit.  Each field is a three-state JS value: none
means the field is absent from the patch (kept on merge), some none is an
explicit undefined (cleared on merge), some (some v) sets the value. -/
structure StashPatch where
  pin2Key : Option (Option Bytes)
  pin2TextBox : Option (Option Box)
deriving DecidableEq, Repr

/-- The login (in-memory tree) patch of a kit, with the same three-state
fields as StashPatch. -/
structure LoginPatch where
  pin2Key : Option (Option Bytes)
  pin : Option (Option String)
deriving DecidableEq, Repr

/-- LoginKit from login-types.js: the transactional descriptor of one node
mutation.  serverMethod none is the default POST. -/
structure LoginKit where
  serverMethod : Option String
  serverPath : String
  server : Option ChangePin2Payload
  stash : StashPatch
  login : LoginPatch
  loginId : Bytes
deriving DecidableEq, Repr

/-- makeChangePin2Kit from pin2.js.  The stateful io.random collaborator is
modelled by the supply random together with a call counter: call number ctr
returns random ctr, and the returned counter says how many random keys were
drawn.  The source requests 32 bytes on each draw. -/
def makeChangePin2Kit (hmacSha256 : Bytes → Bytes → Bytes) (random : Nat → Bytes)
    (ctr : Nat) (login : LoginTree) (username pin : String) (enableLogin : Bool) :
    LoginKit × Nat :=
  let pin2TextBox := encrypt (utf8parse pin) login.loginKey
  if enableLogin then
    let pc : Bytes × Nat :=
      match login.pin2Key with
      | some k => (k, ctr)
      | none => (random ctr, ctr + 1)
    let pin2Key := pc.1
    let pin2Box := encrypt login.loginKey pin2Key
    let pin2KeyBox := encrypt pin2Key login.loginKey
    ({ serverMethod := none
       serverPath := "/v2/login/pin2"
       server := some {
         pin2Id := some (pin2Id hmacSha256 pin2Key username)
         pin2Auth := some (pin2Auth hmacSha256 pin2Key pin)
         pin2Box := some pin2Box
         pin2KeyBox := some pin2KeyBox
         pin2TextBox := some pin2TextBox }
       stash := { pin2Key := some (some pin2Key), pin2TextBox := some (some pin2TextBox) }
       login := { pin2Key := some (some pin2Key), pin := some (some pin) }
       loginId := login.loginId }, pc.2)
  else
    ({ serverMethod := none
       serverPath := "/v2/login/pin2"
       server := some {
         pin2Id := none
         pin2Auth := none
         pin2Box := none
         pin2KeyBox := none
         pin2TextBox := some pin2TextBox }
       stash := { pin2Key := some none, pin2TextBox := some (some pin2TextBox) }
       login := { pin2Key := some none, pin := some (some pin) }
       loginId := login.loginId }, ctr)

mutual

/-- makeChangePin2Kits from pin2.js: the kit for the root, then the kits of
every child subtree, with the random counter threaded left to right. -/
def makeChangePin2Kits (hmacSha256 : Bytes → Bytes → Bytes) (random : Nat → Bytes)
    (ctr : Nat) (loginTree : LoginTree) (username pin : String) (enableLogin : Bool) :
    List LoginKit × Nat :=
  match loginTree with
  | .node i k a u p pk cs =>
    let first := makeChangePin2Kit hmacSha256 random ctr (.node i k a u p pk cs)
      username pin enableLogin
    let rest := makeChangePin2KitsList hmacSha256 random first.2 cs username pin enableLogin
    (first.1 :: rest.1, rest.2)

/-- The child loop of makeChangePin2Kits. -/
def makeChangePin2KitsList (hmacSha256 : Bytes → Bytes → Bytes) (random : Nat → Bytes)
    (ctr : Nat) (trees : List LoginTree) (username pin : String) (enableLogin : Bool) :
    List LoginKit × Nat :=
  match trees with
  | [] => ([], ctr)
  | t :: ts =>
    let first := makeChangePin2Kits hmacSha256 random ctr t username pin enableLogin
    let rest := makeChangePin2KitsList hmacSha256 random first.2 ts username pin enableLogin
    (first.1 ++ rest.1, rest.2)

end

/-- Kit construction replayed over an explicit node list, consuming the
random counter node by node; used to relate the tree recursion to the
pre-order node list. -/
def kitsFromList (hmacSha256 : Bytes → Bytes → Bytes) (random : Nat → Bytes)
    (ctr : Nat) (nodes : List LoginTree) (username pin : String) (enableLogin : Bool) :
    List LoginKit × Nat :=
  match nodes with
  | [] => ([], ctr)
  | n :: rest =>
    let first := makeChangePin2Kit hmacSha256 random ctr n username pin enableLogin
    let more := kitsFromList hmacSha256 random first.2 rest username pin enableLogin
    (first.1 :: more.1, more.2)

theorem kitsFromList_append (hmacSha256 : Bytes → Bytes → Bytes) (random : Nat → Bytes)
    (username pin : String) (enableLogin : Bool) (xs : List LoginTree) :
    ∀ (ys : List LoginTree) (ctr : Nat),
      kitsFromList hmacSha256 random ctr (xs ++ ys) username pin enableLogin =
        ((kitsFromList hmacSha256 random ctr xs username pin enableLogin).1 ++
          (kitsFromList hmacSha256 random
            (kitsFromList hmacSha256 random ctr xs username pin enableLogin).2
            ys username pin enableLogin).1,
         (kitsFromList hmacSha256 random
            (kitsFromList hmacSha256 random ctr xs username pin enableLogin).2
            ys username pin enableLogin).2) := by
  induction xs with
  | nil => intro ys ctr; simp [kitsFromList]
  | cons n rest ih =>
    intro ys ctr
    simp only [List.cons_append, kitsFromList]
    rw [List.append_eq, ih]

mutual

theorem makeChangePin2Kits_eq_list (hmacSha256 : Bytes → Bytes → Bytes)
    (random : Nat → Bytes) (username pin : String) (enableLogin : Bool) :
    (t : LoginTree) → ∀ ctr : Nat,
      makeChangePin2Kits hmacSha256 random ctr t username pin enableLogin =
        kitsFromList hmacSha256 random ctr (preorderT t) username pin enableLogin
  | .node i k a u p pk cs => by
    intro ctr
    rw [makeChangePin2Kits, preorderT, kitsFromList]
    rw [makeChangePin2KitsList_eq_list hmacSha256 random username pin enableLogin cs]

theorem makeChangePin2KitsList_eq_list (hmacSha256 : Bytes → Bytes → Bytes)
    (random : Nat → Bytes) (username pin : String) (enableLogin : Bool) :
    (ts : List LoginTree) → ∀ ctr : Nat,
      makeChangePin2KitsList hmacSha256 random ctr ts username pin enableLogin =
        kitsFromList hmacSha256 random ctr (preorderListT ts) username pin enableLogin
  | [] => by intro ctr; rfl
  | t :: ts => by
    intro ctr
    rw [makeChangePin2KitsList, preorderListT, kitsFromList_append]
    rw [makeChangePin2Kits_eq_list hmacSha256 random username pin enableLogin t]
    rw [makeChangePin2KitsList_eq_list hmacSha256 random username pin enableLogin ts]

end

/-- makeDeletePin2Kit from pin2.js: a DELETE request with no body and patches
that clear pin2Key on both stores. -/
def makeDeletePin2Kit (login : LoginTree) : LoginKit :=
  { serverMethod := some "DELETE"
    serverPath := "/v2/login/pin2"
    server := none
    stash := { pin2Key := some none, pin2TextBox := none }
    login := { pin2Key := some none, pin := none }
    loginId := login.loginId }

mutual

/-- makeDeletePin2Kits from pin2.js: the delete kit for the root, then the
delete kits of every child subtree. -/
def makeDeletePin2Kits : LoginTree → List LoginKit
  | .node i k a u p pk cs => makeDeletePin2Kit (.node i k a u p pk cs) :: makeDeletePin2KitsList cs

/-- The child loop of makeDeletePin2Kits. -/
def makeDeletePin2KitsList : List LoginTree → List LoginKit
  | [] => []
  | t :: ts => makeDeletePin2Kits t ++ makeDeletePin2KitsList ts

end

mutual

theorem makeDeletePin2Kits_eq_map :
    (t : LoginTree) → makeDeletePin2Kits t = (preorderT t).map makeDeletePin2Kit
  | .node i k a u p pk cs => by
    rw [makeDeletePin2Kits, preorderT, List.map_cons, makeDeletePin2KitsList_eq_map cs]

theorem makeDeletePin2KitsList_eq_map :
    (ts : List LoginTree) → makeDeletePin2KitsList ts = (preorderListT ts).map makeDeletePin2Kit
  | [] => rfl
  | t :: ts => by
    rw [makeDeletePin2KitsList, preorderListT, List.map_append,
      makeDeletePin2Kits_eq_map t, makeDeletePin2KitsList_eq_map ts]

end

/-- The C7 claim statement for one tree: one delete kit per pre-order node,
each kit a bodiless DELETE clearing the credential key on both patches, and
the kit list depends only on the pre-order loginId list (hence the same for
any tree in any prior enabled state with the same node identities, and the
same on a repeated call). -/
def deleteKitsOK (t : LoginTree) : Prop :=
  makeDeletePin2Kits t = (preorderT t).map makeDeletePin2Kit ∧
  (∀ kit ∈ makeDeletePin2Kits t,
    kit.serverMethod = some "DELETE" ∧ kit.server = none ∧
    kit.stash = { pin2Key := some none, pin2TextBox := none } ∧
    kit.login = { pin2Key := some none, pin := none }) ∧
  (∀ t2 : LoginTree,
    (preorderT t2).map LoginTree.loginId = (preorderT t).map LoginTree.loginId →
    makeDeletePin2Kits t2 = makeDeletePin2Kits t)

/-- C7: makeDeletePin2Kits produces exactly one kit per node in pre-order,
each a DELETE request with no body whose patches unconditionally clear the
credential key, independently of any prior factor state; repeated calls on
the same tree give equal lists. -/
theorem makeDeletePin2Kits_spec (t : LoginTree) : deleteKitsOK t := by
  refine ⟨makeDeletePin2Kits_eq_map t, ?_, ?_⟩
  · intro kit hkit
    rw [makeDeletePin2Kits_eq_map t] at hkit
    rcases List.mem_map.mp hkit with ⟨n, -, hn⟩
    subst hn
    exact ⟨rfl, rfl, rfl, rfl⟩
  · intro t2 hsame
    rw [makeDeletePin2Kits_eq_map t, makeDeletePin2Kits_eq_map t2]
    have hview : ∀ s : LoginTree, makeDeletePin2Kit s =
        (fun i => { serverMethod := some "DELETE"
                    serverPath := "/v2/login/pin2"
                    server := none
                    stash := { pin2Key := some none, pin2TextBox := none }
                    login := { pin2Key := some none, pin := none }
                    loginId := i : LoginKit }) s.loginId := fun s => rfl
    calc (preorderT t2).map makeDeletePin2Kit
        = ((preorderT t2).map LoginTree.loginId).map _ := by
          rw [List.map_map]; exact List.map_congr_left fun s _ => hview s
      _ = ((preorderT t).map LoginTree.loginId).map _ := by rw [hsame]
      _ = (preorderT t).map makeDeletePin2Kit := by
          rw [List.map_map]; exact (List.map_congr_left fun s _ => (hview s).symm)

/-- A sample tree with a root and two children, the first child having a
pre-existing pin2Key. -/
def exTree : LoginTree :=
  .node [10] [100] "" (some "alice") none none
    [.node [11] [101] "app" none none (some [5, 5]) [],
     .node [12] [102] "app" none none none []]

/-- C7 witness: the claim statement evaluated on the sample tree. -/
theorem makeDeletePin2Kits_spec_witness : deleteKitsOK exTree :=
  makeDeletePin2Kits_spec exTree

/-- The C4 claim statement for one node: the disabling kit sends only
pin2TextBox (the pin encrypted under the node master key), both patches
clear pin2Key, and the stash patch still carries the recomputed pin2TextBox;
no random key is drawn. -/
def disableKitOK (hmacSha256 : Bytes → Bytes → Bytes) (random : Nat → Bytes)
    (ctr : Nat) (node : LoginTree) (username pin : String) : Prop :=
  (makeChangePin2Kit hmacSha256 random ctr node username pin false).1.server =
    some { pin2Id := none, pin2Auth := none, pin2Box := none, pin2KeyBox := none,
           pin2TextBox := some (encrypt (utf8parse pin) node.loginKey) } ∧
  (makeChangePin2Kit hmacSha256 random ctr node username pin false).1.stash =
    { pin2Key := some none,
      pin2TextBox := some (some (encrypt (utf8parse pin) node.loginKey)) } ∧
  (makeChangePin2Kit hmacSha256 random ctr node username pin false).1.login =
    { pin2Key := some none, pin := some (some pin) } ∧
  (makeChangePin2Kit hmacSha256 random ctr node username pin false).2 = ctr

/-- C4: with enableLogin false, the kit of a node carries a server payload
with pin2Id, pin2Auth, pin2Box and pin2KeyBox absent and only pin2TextBox
present, the pin freshly encrypted under the node loginKey; the stash and
login patches clear pin2Key while the stash patch still carries the
recomputed pin2TextBox. -/
theorem makeChangePin2Kit_disable_spec (hmacSha256 : Bytes → Bytes → Bytes)
    (random : Nat → Bytes) (ctr : Nat) (node : LoginTree) (username pin : String) :
    disableKitOK hmacSha256 random ctr node username pin :=
  ⟨rfl, rfl, rfl, rfl⟩

/-- Pairs each node of a list with the value of the random call counter when
its kit is built: a node without pin2Key draws exactly one fresh key, so the
counter advances by one there and is unchanged on nodes that already carry a
key. -/
def annotate (ctr : Nat) : List LoginTree → List (LoginTree × Nat)
  | [] => []
  | n :: ns => (n, ctr) :: annotate (ctr + (if n.pin2Key.isNone then 1 else 0)) ns

/-- The credential key used for the kit of an annotated node: the existing
pin2Key when present (reused unchanged), else the fresh key drawn at the
node counter. -/
def nodeKey (random : Nat → Bytes) (nc : LoginTree × Nat) : Bytes :=
  match nc.1.pin2Key with
  | some k => k
  | none => random nc.2

/-- What the enabling kit of one annotated node must look like: a POST to
the pin2 path for that loginId, the same pin everywhere, the node credential
key, and a server body carrying all five wrapped values. -/
def KitMatches (hmacSha256 : Bytes → Bytes → Bytes) (random : Nat → Bytes)
    (username pin : String) (kit : LoginKit) (nc : LoginTree × Nat) : Prop :=
  kit.serverMethod = none ∧
  kit.serverPath = "/v2/login/pin2" ∧
  kit.loginId = nc.1.loginId ∧
  kit.login = { pin2Key := some (some (nodeKey random nc)), pin := some (some pin) } ∧
  kit.stash = { pin2Key := some (some (nodeKey random nc)),
                pin2TextBox := some (some (encrypt (utf8parse pin) nc.1.loginKey)) } ∧
  kit.server = some {
    pin2Id := some (pin2Id hmacSha256 (nodeKey random nc) username)
    pin2Auth := some (pin2Auth hmacSha256 (nodeKey random nc) pin)
    pin2Box := some (encrypt nc.1.loginKey (nodeKey random nc))
    pin2KeyBox := some (encrypt (nodeKey random nc) nc.1.loginKey)
    pin2TextBox := some (encrypt (utf8parse pin) nc.1.loginKey) }

theorem makeChangePin2Kit_enable (hmacSha256 : Bytes → Bytes → Bytes)
    (random : Nat → Bytes) (username pin : String) (n : LoginTree) (ctr : Nat) :
    makeChangePin2Kit hmacSha256 random ctr n username pin true =
      ({ serverMethod := none
         serverPath := "/v2/login/pin2"
         server := some {
           pin2Id := some (pin2Id hmacSha256 (nodeKey random (n, ctr)) username)
           pin2Auth := some (pin2Auth hmacSha256 (nodeKey random (n, ctr)) pin)
           pin2Box := some (encrypt n.loginKey (nodeKey random (n, ctr)))
           pin2KeyBox := some (encrypt (nodeKey random (n, ctr)) n.loginKey)
           pin2TextBox := some (encrypt (utf8parse pin) n.loginKey) }
         stash := { pin2Key := some (some (nodeKey random (n, ctr)))
                    pin2TextBox := some (some (encrypt (utf8parse pin) n.loginKey)) }
         login := { pin2Key := some (some (nodeKey random (n, ctr))), pin := some (some pin) }
         loginId := n.loginId },
       ctr + (if n.pin2Key.isNone then 1 else 0)) := by
  cases hk : n.pin2Key with
  | some k => simp [makeChangePin2Kit, nodeKey, hk]
  | none => simp [makeChangePin2Kit, nodeKey, hk]

theorem kitsFromList_enable_forall (hmacSha256 : Bytes → Bytes → Bytes)
    (random : Nat → Bytes) (username pin : String) (nodes : List LoginTree) :
    ∀ ctr : Nat,
      List.Forall₂ (KitMatches hmacSha256 random username pin)
        (kitsFromList hmacSha256 random ctr nodes username pin true).1
        (annotate ctr nodes) ∧
      (kitsFromList hmacSha256 random ctr nodes username pin true).2 =
        ctr + nodes.countP (fun n => n.pin2Key.isNone) := by
  induction nodes with
  | nil =>
    intro ctr
    exact ⟨List.Forall₂.nil, by simp [kitsFromList]⟩
  | cons n rest ih =>
    intro ctr
    simp only [kitsFromList, makeChangePin2Kit_enable, annotate]
    constructor
    · exact List.Forall₂.cons ⟨rfl, rfl, rfl, rfl, rfl, rfl⟩
        (ih (ctr + if n.pin2Key.isNone then 1 else 0)).1
    · rw [(ih (ctr + if n.pin2Key.isNone then 1 else 0)).2, List.countP_cons]
      by_cases hk : n.pin2Key.isNone
      · simp [hk]; omega
      · simp [hk]

/-- The C3 claim statement for one tree: the enabling kit list lines up one
to one, in order, with the pre-order node list annotated by the running
fresh-key counter that starts at zero. -/
def enableKitsOK (hmacSha256 : Bytes → Bytes → Bytes) (random : Nat → Bytes)
    (t : LoginTree) (username pin : String) : Prop :=
  (makeChangePin2Kits hmacSha256 random 0 t username pin true).1.length =
    (preorderT t).length ∧
  List.Forall₂ (KitMatches hmacSha256 random username pin)
    (makeChangePin2Kits hmacSha256 random 0 t username pin true).1
    (annotate 0 (preorderT t))

/-- C3: enabling produces exactly one kit per node in pre-order, each kit
carrying the same pin and a server body with all five wrapped values; the
credential key of a node kit is the existing pin2Key when present (reused
unchanged) and otherwise the fresh random draw at that node position, of
length 32 bytes, each keyless node drawing a distinct call of the supply. -/
theorem makeChangePin2Kits_enable_spec (hmacSha256 : Bytes → Bytes → Bytes)
    (random : Nat → Bytes) (t : LoginTree) (username pin : String)
    (hrand : ∀ n, (random n).length = 32) :
    enableKitsOK hmacSha256 random t username pin ∧
    (∀ nc ∈ annotate 0 (preorderT t), nc.1.pin2Key = none →
      nodeKey random nc = random nc.2 ∧ (nodeKey random nc).length = 32) := by
  have hmain := kitsFromList_enable_forall hmacSha256 random username pin (preorderT t) 0
  have heq := makeChangePin2Kits_eq_list hmacSha256 random username pin true t 0
  refine ⟨⟨?_, ?_⟩, ?_⟩
  · rw [heq]
    have hlen := hmain.1.length_eq
    rw [hlen]
    clear hmain heq
    generalize 0 = c
    induction preorderT t generalizing c with
    | nil => rfl
    | cons n rest ih => simp [annotate, ih]
  · rw [heq]; exact hmain.1
  · intro nc _ hnone
    have : nodeKey random nc = random nc.2 := by unfold nodeKey; rw [hnone]
    exact ⟨this, by rw [this]; exact hrand nc.2⟩

/-- A concrete keyed-hash collaborator for witnesses. -/
def hmEx : Bytes → Bytes → Bytes := fun d k => d ++ k

/-- A concrete random supply for witnesses: call n yields 32 bytes n. -/
def randomEx : Nat → Bytes := fun n => List.replicate 32 n

/-- C3 witness: the claim statement evaluated on the sample tree, whose
first child already carries a pin2Key and whose root and second child draw
fresh keys. -/
theorem makeChangePin2Kits_enable_spec_witness :
    enableKitsOK hmEx randomEx exTree "alice" "1234" ∧
    (∀ nc ∈ annotate 0 (preorderT exTree), nc.1.pin2Key = none →
      nodeKey randomEx nc = randomEx nc.2 ∧ (nodeKey randomEx nc).length = 32) :=
  makeChangePin2Kits_enable_spec hmEx randomEx exTree "alice" "1234"
    (fun n => by simp [randomEx])

/-- The outcome of the changePin policy: either the enable-without-pin
error, or a kit list handed to the Kit Engine. -/
inductive ChangePinResult where
  | pinRequired : ChangePinResult
  | applied (kits : List LoginKit) : ChangePinResult
deriving DecidableEq, Repr

/-- changePin from pin2.js: resolves the enableLogin and pin defaults from
the login tree, fails when enabling without any known pin, deletes the
factor outright when disabling without a pin, and otherwise builds the
change kits; the kits handed to applyKits are returned. -/
def changePin (hmacSha256 : Bytes → Bytes → Bytes) (random : Nat → Bytes)
    (loginTree : LoginTree) (username : String)
    (pin : Option String) (enableLogin : Option Bool) : ChangePinResult :=
  let enableLogin :=
    match enableLogin with
    | some b => b
    | none => loginTree.pin2Key.isSome || (pin.isSome && loginTree.pin.isNone)
  let pin :=
    match pin with
    | some p => some p
    | none => loginTree.pin
  match pin with
  | none =>
    if enableLogin then .pinRequired
    else .applied (makeDeletePin2Kits loginTree)
  | some p =>
    .applied (makeChangePin2Kits hmacSha256 random 0 loginTree username p enableLogin).1

/-- The C5 claim statement: the enableLogin default is "already enabled, or
a pin was supplied and none is cached"; the pin default is the cached tree
pin; enabling with no pin available anywhere is the pinRequired error; and
disabling with no pin available applies the full delete-kit tree. -/
def changePinPolicyOK (hmacSha256 : Bytes → Bytes → Bytes) (random : Nat → Bytes)
    (t : LoginTree) (username : String) : Prop :=
  (∀ pin : Option String,
    changePin hmacSha256 random t username pin none =
      changePin hmacSha256 random t username pin
        (some (t.pin2Key.isSome || (pin.isSome && t.pin.isNone)))) ∧
  (∀ e : Option Bool,
    changePin hmacSha256 random t username none e =
      changePin hmacSha256 random t username t.pin e) ∧
  (∀ (pin : Option String) (e : Option Bool),
    changePin hmacSha256 random t username pin e = .pinRequired ↔
      pin = none ∧ t.pin = none ∧ e.getD t.pin2Key.isSome = true) ∧
  (∀ (pin : Option String) (e : Option Bool),
    pin = none → t.pin = none → e.getD t.pin2Key.isSome = false →
      changePin hmacSha256 random t username pin e =
        .applied (makeDeletePin2Kits t))

/-- C5: the changePin policy resolves its defaults as the claim states,
fails with the pin-required error exactly when enabling is resolved with no
pin value available anywhere, and falls back to the full delete-kit tree
when disabling with no pin value available. -/
theorem changePin_policy_spec (hmacSha256 : Bytes → Bytes → Bytes)
    (random : Nat → Bytes) (t : LoginTree) (username : String) :
    changePinPolicyOK hmacSha256 random t username := by
  refine ⟨fun pin => rfl, ?_, ?_, ?_⟩
  · intro e
    cases ht : t.pin <;> cases e <;> simp [changePin, ht]
  · intro pin e
    cases pin <;> cases e <;> cases ht : t.pin <;>
      simp [changePin, ht] <;> cases hpk : t.pin2Key <;> simp [hpk]
  · intro pin e hpin htpin he
    subst hpin
    cases e with
    | none => simp_all [changePin]
    | some b => simp_all [changePin]

/-- C5 witness: the claim statement evaluated on the sample tree under the
concrete collaborators. -/
theorem changePin_policy_spec_witness : changePinPolicyOK hmEx randomEx exTree "alice" :=
  changePin_policy_spec hmEx randomEx exTree "alice"

/-- The error checkPin2 throws when no local credential key is found. -/
inductive CheckPin2Err where
  | noPinLocally : CheckPin2Err
deriving DecidableEq, Repr

/-- The body of the dry POST /v2/login issued by checkPin2. -/
structure LoginRequestBody where
  pin2Id : Bytes
  pin2Auth : Bytes
  otp : Option String
deriving DecidableEq, Repr

/-- checkPin2 from pin2.js.  Collaborators are parameters: getStash is the
stash lookup from login-selectors.js, otp the cached code getLoginOtp reads,
and loginFetch the network collaborator deciding whether the dry login
request succeeds.  The then(good, bad) of the source maps success to ok true
and any network or server failure to ok false; the missing-credential path
throws, modelled as the error value. -/
def checkPin2 (hmacSha256 : Bytes → Bytes → Bytes) (getStash : String → LoginStash)
    (loginFetch : LoginRequestBody → Bool) (otp : Option String)
    (login : LoginTree) (pin : String) : Except CheckPin2Err Bool :=
  match login.username with
  | none => .ok false
  | some username =>
    let stashTree := getStash username
    match findPin2Stash stashTree login.appId with
    | none => .error .noPinLocally
    | some stash =>
      match stash.pin2Key with
      | none => .error .noPinLocally
      | some pin2Key =>
        let request : LoginRequestBody :=
          { pin2Id := pin2Id hmacSha256 pin2Key username
            pin2Auth := pin2Auth hmacSha256 pin2Key pin
            otp := otp }
        if loginFetch request then .ok true else .ok false

/-- A login node with a username but whose device stash holds no pin2Key. -/
def exLoginC1 : LoginTree := .node [9] [90] "" (some "bob") none none []

/-- A stash tree with no pin2Key anywhere. -/
def exStashNoPin : LoginStash := .node [9] "" (some "bob") none none []

/-- The same stash with a pin2Key present. -/
def exStashWithPin : LoginStash := .node [9] "" (some "bob") (some [3, 3]) none []

/-- C1: claim counterexample.  With a username present and no local
credential key, checkPin2 throws the no-PIN-set error instead of returning
false, so the claim that every failure path yields the boolean false fails
on this input. -/
theorem checkPin2_c1_counterexample :
    checkPin2 hmEx (fun _ => exStashNoPin) (fun _ => true) none exLoginC1 "1234" =
      .error .noPinLocally :=
  rfl

/-- The C1 amended claim statement: false when the login has no username;
the thrown no-PIN-set error when a username is present but no local
credential is found (this branch is the only throw, and a found credential
always carries a key); otherwise no error, with true exactly when the dry
login request succeeds and false on network failure or server rejection. -/
def checkPin2BehaviorOK (hmacSha256 : Bytes → Bytes → Bytes)
    (getStash : String → LoginStash) (loginFetch : LoginRequestBody → Bool)
    (otp : Option String) (login : LoginTree) (pin : String) : Prop :=
  (login.username = none →
    checkPin2 hmacSha256 getStash loginFetch otp login pin = .ok false) ∧
  (∀ u, login.username = some u →
    findPin2Stash (getStash u) login.appId = none →
    checkPin2 hmacSha256 getStash loginFetch otp login pin = .error .noPinLocally) ∧
  (∀ u stash pin2Key, login.username = some u →
    findPin2Stash (getStash u) login.appId = some stash →
    stash.pin2Key = some pin2Key →
    checkPin2 hmacSha256 getStash loginFetch otp login pin =
      .ok (loginFetch
        { pin2Id := pin2Id hmacSha256 pin2Key u
          pin2Auth := pin2Auth hmacSha256 pin2Key pin
          otp := otp })) ∧
  (∀ u stash, login.username = some u →
    findPin2Stash (getStash u) login.appId = some stash → stash.pin2Key.isSome)

/-- C1 (amended): checkPin2 returns false when the login carries no
username; it throws when a username is present but no local credential key
is found; on every other path it returns a boolean and never throws, true
exactly when the dry login request succeeds. -/
theorem checkPin2_behavior (hmacSha256 : Bytes → Bytes → Bytes)
    (getStash : String → LoginStash) (loginFetch : LoginRequestBody → Bool)
    (otp : Option String) (login : LoginTree) (pin : String) :
    checkPin2BehaviorOK hmacSha256 getStash loginFetch otp login pin := by
  refine ⟨?_, ?_, ?_, fun u stash _ hs => findPin2Stash_pin2Key_isSome hs⟩
  · intro hu
    simp [checkPin2, hu]
  · intro u hu hf
    simp [checkPin2, hu, hf]
  · intro u stash pin2Key hu hf hk
    simp only [checkPin2, hu, hf, hk]
    cases hfetch : loginFetch
        { pin2Id := pin2Id hmacSha256 pin2Key u
          pin2Auth := pin2Auth hmacSha256 pin2Key pin
          otp := otp } <;>
      simp [hfetch]

/-- C1 witness: the amended behavior evaluated on a device stash that does
carry the credential, under concrete collaborators. -/
theorem checkPin2_behavior_witness :
    checkPin2BehaviorOK hmEx (fun _ => exStashWithPin) (fun _ => true) none exLoginC1 "1234" :=
  checkPin2_behavior hmEx (fun _ => exStashWithPin) (fun _ => true) none exLoginC1 "1234"

/-- The error kinds of loginPin2: NotEnabled when no local credential,
MissingData when the reply lacks pin2Box, and a decryption failure. -/
inductive LoginPin2Err where
  | notEnabled : LoginPin2Err
  | missingData : LoginPin2Err
  | decryptFailed : LoginPin2Err
deriving DecidableEq, Repr

/-- The identification and proof pair loginPin2 sends. -/
structure ChallengeRequest where
  pin2Id : Bytes
  pin2Auth : Bytes
deriving DecidableEq, Repr

/-- The server reply to the login request, as read by the pin2 decrypt
step. -/
structure ServerReply where
  pin2Box : Option Box
deriving DecidableEq, Repr

/-- Modelled from the spec: serverLogin from login.js (not under src/), the
Challenge Response Login Protocol.  It sends the request and on a reply runs
the caller decrypt step to recover the master key; the sent request is
returned beside the key so theorems can state what was sent. -/
def serverLogin (request : ChallengeRequest) (reply : ServerReply)
    (decryptReply : ServerReply → Except LoginPin2Err Bytes) :
    Except LoginPin2Err (ChallengeRequest × Bytes) :=
  (decryptReply reply).map (fun loginKey => (request, loginKey))

/-- loginPin2 from pin2.js: finds the device credential, fails NotEnabled
without one, and otherwise runs the challenge protocol with the pin2 decrypt
step. -/
def loginPin2 (hmacSha256 : Bytes → Bytes → Bytes) (getStash : String → LoginStash)
    (appId username pin : String) (reply : ServerReply) :
    Except LoginPin2Err (ChallengeRequest × Bytes) :=
  let stashTree := getStash username
  match findPin2Stash stashTree appId with
  | none => .error .notEnabled
  | some stash =>
    match stash.pin2Key with
    | none => .error .notEnabled
    | some pin2Key =>
      serverLogin
        { pin2Id := pin2Id hmacSha256 pin2Key username
          pin2Auth := pin2Auth hmacSha256 pin2Key pin }
        reply
        (fun r =>
          match r.pin2Box with
          | none => .error .missingData
          | some box =>
            match decrypt box pin2Key with
            | some loginKey => .ok loginKey
            | none => .error .decryptFailed)

/-- The C6 claim statement: NotEnabled exactly when no local credential is
found; with a credential of key pin2Key, MissingData exactly when the reply
lacks pin2Box, the request sent is the pin2Id and pin2Auth HMAC pair, and a
pin2Box encrypted under the local pin2Key decrypts to the master key. -/
def loginPin2OK (hmacSha256 : Bytes → Bytes → Bytes) (getStash : String → LoginStash)
    (appId username pin : String) (reply : ServerReply) : Prop :=
  (loginPin2 hmacSha256 getStash appId username pin reply = .error .notEnabled ↔
    findPin2Stash (getStash username) appId = none) ∧
  (∀ stash pin2Key, findPin2Stash (getStash username) appId = some stash →
    stash.pin2Key = some pin2Key →
    (loginPin2 hmacSha256 getStash appId username pin reply = .error .missingData ↔
      reply.pin2Box = none) ∧
    (∀ box, reply.pin2Box = some box →
      loginPin2 hmacSha256 getStash appId username pin reply =
        match decrypt box pin2Key with
        | some loginKey =>
          .ok ({ pin2Id := pin2Id hmacSha256 pin2Key username
                 pin2Auth := pin2Auth hmacSha256 pin2Key pin }, loginKey)
        | none => .error .decryptFailed) ∧
    (∀ loginKey, reply.pin2Box = some (encrypt loginKey pin2Key) →
      loginPin2 hmacSha256 getStash appId username pin reply =
        .ok ({ pin2Id := pin2Id hmacSha256 pin2Key username
               pin2Auth := pin2Auth hmacSha256 pin2Key pin }, loginKey)))

/-- C6: loginPin2 fails NotEnabled exactly when findPin2Stash yields no
credential; otherwise it sends exactly the pin2Id and pin2Auth pair computed
from the local key, its decrypt step fails MissingData exactly when the
reply lacks pin2Box, and it recovers the master key by decrypting pin2Box
with the local pin2Key. -/
theorem loginPin2_spec (hmacSha256 : Bytes → Bytes → Bytes)
    (getStash : String → LoginStash) (appId username pin : String)
    (reply : ServerReply) :
    loginPin2OK hmacSha256 getStash appId username pin reply := by
  constructor
  · rcases hf : findPin2Stash (getStash username) appId with _ | stash
    · simp [loginPin2, hf]
    · obtain ⟨pin2Key, hk⟩ :=
        Option.isSome_iff_exists.mp (findPin2Stash_pin2Key_isSome hf)
    
      simp only [loginPin2, hf, hk]
      cases hb : reply.pin2Box with
      | none => simp [serverLogin, hb, Except.map]
      | some box =>
        cases hd : decrypt box pin2Key with
        | none => simp [serverLogin, hb, hd, Except.map]
        | some loginKey => simp [serverLogin, hb, hd, Except.map]
  · intro stash pin2Key hf hk
    refine ⟨?_, ?_, ?_⟩
    · simp only [loginPin2, hf, hk]
      cases hb : reply.pin2Box with
      | none => simp [serverLogin, hb, Except.map]
      | some box =>
        cases hd : decrypt box pin2Key with
        | none => simp [serverLogin, hb, hd, Except.map]
        | some loginKey => simp [serverLogin, hb, hd, Except.map]
    · intro box hb
      simp only [loginPin2, hf, hk]
      cases hd : decrypt box pin2Key with
      | none => simp [serverLogin, hb, hd, Except.map]
      | some loginKey => simp [serverLogin, hb, hd, Except.map]
    · intro loginKey hb
      simp [loginPin2, hf, hk, serverLogin, hb, decrypt, encrypt, Except.map]

/-- C6 witness: the claim statement with a stash carrying the key and a
reply whose pin2Box wraps the master key under that key. -/
theorem loginPin2_spec_witness :
    loginPin2OK hmEx (fun _ => exStashWithPin) "" "bob" "1234"
      { pin2Box := some (encrypt [90] [3, 3]) } :=
  loginPin2_spec hmEx (fun _ => exStashWithPin) "" "bob" "1234"
    { pin2Box := some (encrypt [90] [3, 3]) }

/-- Merging a stash patch into one stash node: a patch field that is absent
keeps the stored value, an explicit undefined clears it, a value replaces
it. -/
def applyStashPatch (stash : LoginStash) (patch : StashPatch) : LoginStash :=
  match stash with
  | .node i a u k b cs => .node i a u (patch.pin2Key.getD k) (patch.pin2TextBox.getD b) cs

mutual

/-- Modelled from the spec: the stash side of kit commit, merging the patch
into the node matching the kit loginId. -/
def updateStashTree (tree : LoginStash) (loginId : Bytes) (patch : StashPatch) : LoginStash :=
  match tree with
  | .node i a u k b cs =>
    if i = loginId then applyStashPatch (.node i a u k b cs) patch
    else .node i a u k b (updateStashList cs loginId patch)

/-- The child loop of updateStashTree. -/
def updateStashList (trees : List LoginStash) (loginId : Bytes) (patch : StashPatch) :
    List LoginStash :=
  match trees with
  | [] => []
  | t :: ts => updateStashTree t loginId patch :: updateStashList ts loginId patch

end

/-- Merging a login patch into one login tree node. -/
def applyLoginPatch (login : LoginTree) (patch : LoginPatch) : LoginTree :=
  match login with
  | .node i key a u p pk cs => .node i key a u (patch.pin.getD p) (patch.pin2Key.getD pk) cs

mutual

/-- Modelled from the spec: the in-memory tree side of kit commit. -/
def updateLoginTree (tree : LoginTree) (loginId : Bytes) (patch : LoginPatch) : LoginTree :=
  match tree with
  | .node i key a u p pk cs =>
    if i = loginId then applyLoginPatch (.node i key a u p pk cs) patch
    else .node i key a u p pk (updateLoginList cs loginId patch)

/-- The child loop of updateLoginTree. -/
def updateLoginList (trees : List LoginTree) (loginId : Bytes) (patch : LoginPatch) :
    List LoginTree :=
  match trees with
  | [] => []
  | t :: ts => updateLoginTree t loginId patch :: updateLoginList ts loginId patch

end

/-- The two local stores the Kit Engine mutates: the persisted stash tree
and the in-memory login tree. -/
structure KitState where
  stashTree : LoginStash
  loginTree : LoginTree

/-- Committing one kit locally: merge its stash patch and its tree patch
into the nodes matching its loginId. -/
def commitKit (st : KitState) (kit : LoginKit) : KitState :=
  { stashTree := updateStashTree st.stashTree kit.loginId kit.stash
    loginTree := updateLoginTree st.loginTree kit.loginId kit.login }

/-- Modelled from the spec: applyKits from login.js (not under src/), the
Kit Application Engine.  Kits are processed strictly in order; for each kit
the server request is issued (its outcome supplied by the server collaborator,
indexed by kit position), and only on success are the stash and tree patches
committed before moving on; a failure stops everything, keeps the commits
made so far, and surfaces that kit error. -/
def applyKits (server : Nat → LoginKit → Except String Unit) :
    Nat → KitState → List LoginKit → KitState × Option String
  | _, st, [] => (st, none)
  | k, st, kit :: rest =>
    match server k kit with
    | .error e => (st, some e)
    | .ok _ => applyKits server (k + 1) (commitKit st kit) rest

theorem applyKits_fail_general (server : Nat → LoginKit → Except String Unit) :
    ∀ (kits : List LoginKit) (k s : Nat) (st : KitState) (kitk : LoginKit) (e : String),
      kits[k]? = some kitk →
      (∀ i kit, i < k → kits[i]? = some kit → server (s + i) kit = .ok ()) →
      server (s + k) kitk = .error e →
      applyKits server s st kits = (List.foldl commitKit st (kits.take k), some e) ∧
      (∀ server2 : Nat → LoginKit → Except String Unit,
        (∀ i kit, i ≤ k → kits[i]? = some kit → server2 (s + i) kit = server (s + i) kit) →
        applyKits server2 s st kits = applyKits server s st kits) := by
  intro kits
  induction kits with
  | nil => intro k s st kitk e hget; simp at hget
  | cons kit0 rest ih =>
    intro k s st kitk e hget hok herr
    cases k with
    | zero =>
      rw [List.getElem?_cons_zero] at hget
      injection hget with hget
      subst hget
      rw [Nat.add_zero] at herr
      constructor
      · simp [applyKits, herr]
      · intro server2 h2
        have h20 := h2 0 kit0 (Nat.zero_le 0) (by rw [List.getElem?_cons_zero])
        rw [Nat.add_zero] at h20
        simp [applyKits, herr, h20]
    | succ k =>
      rw [List.getElem?_cons_succ] at hget
      have hok0 := hok 0 kit0 (Nat.succ_pos k) (by rw [List.getElem?_cons_zero])
      rw [Nat.add_zero] at hok0
      have hokr : ∀ i kit, i < k → rest[i]? = some kit →
          server (s + 1 + i) kit = .ok () := by
        intro i kit hi hg
        have := hok (i + 1) kit (Nat.succ_lt_succ hi) (by rw [List.getElem?_cons_succ]; exact hg)
        rwa [show s + (i + 1) = s + 1 + i by omega] at this
      have herrr : server (s + 1 + k) kitk = .error e := by
        rwa [show s + (k + 1) = s + 1 + k by omega] at herr
      obtain ⟨hmain, hframe⟩ := ih k (s + 1) (commitKit st kit0) kitk e hget hokr herrr
      constructor
      · rw [List.take_succ_cons, List.foldl_cons]
        calc applyKits server s st (kit0 :: rest)
            = applyKits server (s + 1) (commitKit st kit0) rest := by
              simp [applyKits, hok0]
          _ = (List.foldl commitKit (commitKit st kit0) (rest.take k), some e) := hmain
      · intro server2 h2
        have h20 := h2 0 kit0 (Nat.zero_le (k + 1)) (by rw [List.getElem?_cons_zero])
        rw [Nat.add_zero] at h20
        have h2r : ∀ i kit, i ≤ k → rest[i]? = some kit →
            server2 (s + 1 + i) kit = server (s + 1 + i) kit := by
          intro i kit hi hg
          have := h2 (i + 1) kit (Nat.succ_le_succ hi)
            (by rw [List.getElem?_cons_succ]; exact hg)
          rwa [show s + (i + 1) = s + 1 + i by omega] at this
        calc applyKits server2 s st (kit0 :: rest)
            = applyKits server2 (s + 1) (commitKit st kit0) rest := by
              simp [applyKits, h20, hok0]
          _ = applyKits server (s + 1) (commitKit st kit0) rest := hframe server2 h2r
          _ = applyKits server s st (kit0 :: rest) := by simp [applyKits, hok0]

/-- The C8 claim statement: when the server request of the kit at position k
fails, the engine output is the state with exactly the first k kits
committed in order, paired with that kit error; and the output does not
depend on the server collaborator beyond position k, so later requests are
never attempted. -/
def applyKitsFailureOK (server : Nat → LoginKit → Except String Unit)
    (kits : List LoginKit) (k : Nat) (st : KitState) (e : String) : Prop :=
  applyKits server 0 st kits = (List.foldl commitKit st (kits.take k), some e) ∧
  (∀ server2 : Nat → LoginKit → Except String Unit,
    (∀ i kit, i ≤ k → kits[i]? = some kit → server2 i kit = server i kit) →
    applyKits server2 0 st kits = applyKits server 0 st kits)

/-- C8: kits are applied strictly in order; when the k-th server request
fails, the patches of all earlier kits stay committed, the k-th and later
patches are not applied, later server requests are not attempted, and the
engine surfaces the k-th kit error. -/
theorem applyKits_stops_at_failure (server : Nat → LoginKit → Except String Unit)
    (kits : List LoginKit) (k : Nat) (st : KitState) (kitk : LoginKit) (e : String)
    (hget : kits[k]? = some kitk)
    (hok : ∀ i kit, i < k → kits[i]? = some kit → server i kit = .ok ())
    (herr : server k kitk = .error e) :
    applyKitsFailureOK server kits k st e := by
  have hok0 : ∀ i kit, i < k → kits[i]? = some kit → server (0 + i) kit = .ok () := by
    intro i kit hi hg; rw [Nat.zero_add]; exact hok i kit hi hg
  have herr0 : server (0 + k) kitk = .error e := by rw [Nat.zero_add]; exact herr
  obtain ⟨hmain, hframe⟩ := applyKits_fail_general server kits k 0 st kitk e hget hok0 herr0
  refine ⟨hmain, fun server2 h2 => hframe server2 ?_⟩
  intro i kit hi hg
  rw [Nat.zero_add]
  exact h2 i kit hi hg

/-- The server collaborator of the C8 witness: the request of kit 1 fails,
every other request succeeds. -/
def serverC8 : Nat → LoginKit → Except String Unit :=
  fun i _ => if i = 1 then .error "boom" else .ok ()

/-- C8 witness: three delete kits where the second server request fails; the
engine commits kit 0 only and surfaces the kit 1 error. -/
theorem applyKits_stops_at_failure_witness :
    applyKitsFailureOK serverC8 (makeDeletePin2Kits exTree) 1
      { stashTree := exStashWithPin, loginTree := exTree } "boom" :=
  applyKits_stops_at_failure serverC8 (makeDeletePin2Kits exTree) 1
    { stashTree := exStashWithPin, loginTree := exTree }
    (makeDeletePin2Kit (.node [11] [101] "app" none none (some [5, 5]) [])) "boom"
    (by rfl)
    (fun i kit hi _ => by
      have h0 : i = 0 := by omega
      subst h0
      rfl)
    (by rfl)

/-- The character class [A-Za-z0-9_-] of the validateServer regular
expression. -/
def isLabelChar (c : Char) : Bool := c.isAlpha || c.isDigit || c = '_' || c = '-'

theorem dropWhile_length_le (p : Char → Bool) :
    ∀ l : List Char, (l.dropWhile p).length ≤ l.length := by
  intro l
  induction l with
  | nil => simp
  | cons a l ih =>
    rw [List.dropWhile_cons]
    by_cases h : p a = true
    · rw [if_pos h]
      exact Nat.le_trans ih (Nat.le_succ _)
    · rw [if_neg h]

theorem dropWhile_head_false (p : Char → Bool) :
    ∀ (l : List Char) (c : Char) (rest : List Char),
      l.dropWhile p = c :: rest → p c = false := by
  intro l
  induction l with
  | nil => intro c rest h; simp at h
  | cons a l ih =>
    intro c rest h
    rw [List.dropWhile_cons] at h
    by_cases ha : p a = true
    · rw [if_pos ha] at h
      exact ih c rest h
    · rw [if_neg ha] at h
      injection h with h1 _
      subst h1
      simpa using ha

theorem takeWhile_dropWhile_label (p : Char → Bool) (x : Char) (hx : p x = false) :
    ∀ (l r : List Char), (∀ c ∈ l, p c = true) →
      (l ++ x :: r).takeWhile p = l ∧ (l ++ x :: r).dropWhile p = x :: r := by
  intro l
  induction l with
  | nil =>
    intro r _
    exact ⟨by simp [List.takeWhile_cons, hx], by simp [List.dropWhile_cons, hx]⟩
  | cons a l ih =>
    intro r hall
    have ha := hall a (List.mem_cons_self a l)
    have hrec := ih r (fun c hc => hall c (List.mem_cons_of_mem a hc))
    refine ⟨?_, ?_⟩
    · rw [List.cons_append, List.takeWhile_cons, if_pos ha, hrec.1]
    · rw [List.cons_append, List.dropWhile_cons, if_pos ha, hrec.2]

/-- The anchored regular expression of validateServer, translated as a
recursive matcher: zero or more nonempty label groups each followed by a
dot, then edge.app or edgetest.app.  Since a dot can never occur inside a
label, splitting at the first dot is the unique decomposition. -/
def hostMatch (cs : List Char) : Bool :=
  if cs = "edge.app".data ∨ cs = "edgetest.app".data then true
  else
    match h : cs.dropWhile (fun c => c ≠ '.') with
    | [] => false
    | _ :: rest =>
      decide (cs.takeWhile (fun c => c ≠ '.') ≠ []) &&
        (cs.takeWhile (fun c => c ≠ '.')).all isLabelChar && hostMatch rest
termination_by cs.length
decreasing_by
  have hle := dropWhile_length_le (fun c => c ≠ '.') cs
  rw [h] at hle
  simp only [List.length_cons] at hle
  omega

/-- Joins label chunks with dots; the final chunk of an EdgeHost hostname is
the literal edge.app or edgetest.app tail. -/
def joinDot : List (List Char) → List Char
  | [] => []
  | [l] => l
  | l :: ls => l ++ '.' :: joinDot ls

theorem joinDot_cons (l : List Char) (ls : List (List Char)) (h : ls ≠ []) :
    joinDot (l :: ls) = l ++ '.' :: joinDot ls := by
  cases ls with
  | nil => exact absurd rfl h
  | cons l2 ls2 => rfl

/-- The C10 reading of the hostname pattern: zero or more labels of letters,
digits, underscore or hyphen, each followed by a dot, then edge.app or
edgetest.app. -/
def EdgeHost (cs : List Char) : Prop :=
  ∃ (labels : List (List Char)) (final : List Char),
    (∀ l ∈ labels, l ≠ [] ∧ ∀ c ∈ l, isLabelChar c = true) ∧
    (final = "edge.app".data ∨ final = "edgetest.app".data) ∧
    cs = joinDot (labels ++ [final])

theorem isLabelChar_ne_dot {c : Char} (h : isLabelChar c = true) : c ≠ '.' := by
  rintro rfl
  simp [isLabelChar] at h

theorem hostMatch_iff_aux :
    ∀ n : Nat, ∀ cs : List Char, cs.length ≤ n → (hostMatch cs = true ↔ EdgeHost cs) := by
  intro n
  induction n using Nat.strong_induction_on with
  | _ n IH =>
    intro cs hlen
    constructor
    · intro hm
      rw [hostMatch] at hm
      by_cases hbase : cs = "edge.app".data ∨ cs = "edgetest.app".data
      · rcases hbase with hb | hb
        · exact ⟨[], "edge.app".data, by simp, Or.inl rfl, by rw [hb]; rfl⟩
        · exact ⟨[], "edgetest.app".data, by simp, Or.inr rfl, by rw [hb]; rfl⟩
      · rw [if_neg hbase] at hm
        split at hm
        · exact absurd hm (by simp)
        · rename_i c rest hdrop
          simp only [Bool.and_eq_true, decide_eq_true_eq] at hm
          obtain ⟨⟨hne, hall⟩, hrest⟩ := hm
          have hc : c = '.' := by
            have := dropWhile_head_false (fun c => c ≠ '.') cs c rest hdrop
            simpa using this
          subst hc
          have hlenr : rest.length < cs.length := by
            have hle := dropWhile_length_le (fun c => c ≠ '.') cs
            rw [hdrop] at hle
            simp only [List.length_cons] at hle
            omega
          obtain ⟨labels, final, hlab, hfin, hrep⟩ :=
            (IH rest.length (by omega) rest le_rfl).mp hrest
          refine ⟨cs.takeWhile (fun c => c ≠ '.') :: labels, final, ?_, hfin, ?_⟩
          · intro l hl
            rcases List.mem_cons.mp hl with rfl | hl2
            · exact ⟨hne, fun ch hch => List.all_eq_true.mp hall ch hch⟩
            · exact hlab l hl2
          · have hsplit := List.takeWhile_append_dropWhile (fun c => c ≠ '.') cs
            rw [hdrop] at hsplit
            rw [List.cons_append, joinDot_cons _ _ (by simp), ← hrep]
            exact hsplit.symm
    · rintro ⟨labels, final, hlab, hfin, hrep⟩
      cases labels with
      | nil =>
        rw [hostMatch]
        have hcsf : cs = final := by rw [hrep]; rfl
        rcases hfin with h1 | h1
        · rw [if_pos (Or.inl (hcsf.trans h1))]
        · rw [if_pos (Or.inr (hcsf.trans h1))]
      | cons l ls =>
        have hlne := (hlab l (List.mem_cons_self l ls)).1
        have hlchars := (hlab l (List.mem_cons_self l ls)).2
        have hlp : ∀ ch ∈ l, (fun c : Char => decide (c ≠ '.')) ch = true := by
          intro ch hch
          simpa using isLabelChar_ne_dot (hlchars ch hch)
        have hcs : cs = l ++ '.' :: joinDot (ls ++ [final]) := by
          rw [hrep, List.cons_append, joinDot_cons _ _ (by simp)]
        have htd := takeWhile_dropWhile_label (fun c => c ≠ '.') '.' (by simp) l
          (joinDot (ls ++ [final])) hlp
        have hlr : (joinDot (ls ++ [final])).length < n := by
          have hceq : cs.length = l.length + ((joinDot (ls ++ [final])).length + 1) := by
            rw [hcs]
            simp
          omega
        have hm0 : hostMatch (joinDot (ls ++ [final])) = true :=
          (IH (joinDot (ls ++ [final])).length hlr (joinDot (ls ++ [final])) le_rfl).mpr
            ⟨ls, final, fun l2 hl2 => hlab l2 (List.mem_cons_of_mem l hl2), hfin, rfl⟩
        rw [hostMatch]
        by_cases hbase : cs = "edge.app".data ∨ cs = "edgetest.app".data
        · rw [if_pos hbase]
        · rw [if_neg hbase]
          split
          · rename_i hdropeq
            rw [hcs, htd.2] at hdropeq
            simp at hdropeq
          · rename_i c rest hdropeq
            rw [hcs, htd.2] at hdropeq
            injection hdropeq with hc hrest
            subst hc
            subst hrest
            rw [hcs, htd.1]
            simp only [Bool.and_eq_true, decide_eq_true_eq]
            exact ⟨⟨hlne, List.all_eq_true.mpr hlchars⟩, hm0⟩

theorem hostMatch_iff (cs : List Char) : hostMatch cs = true ↔ EdgeHost cs :=
  hostMatch_iff_aux cs.length cs le_rfl

/-- The two fields of the parsed URL that validateServer reads.  The URL
parser is the platform collaborator (new URL in the source); it yields the
protocol with its trailing colon and the hostname, both lower-cased. -/
structure URL where
  protocol : String
  hostname : String
deriving DecidableEq, Repr

/-- validateServer from root.js: localhost over http, localhost or a
hostname matching the edge.app regular expression over https, and an error
for everything else. -/
def validateServer (url : URL) : Except String Unit :=
  if url.protocol = "http:" ∧ url.hostname = "localhost" then .ok ()
  else if url.protocol = "https:" ∧
      (url.hostname = "localhost" ∨ hostMatch url.hostname.data = true) then .ok ()
  else .error
    ("Only *.edge.app or localhost are valid login domain names, not " ++ url.hostname)

/-- makeContext from root.js, reduced to the work it performs before
anything else: the missing apiKey check, then validateServer on the
authServer option, defaulted to the https login.edge.app endpoint. -/
def makeContextValidate (apiKey : Option String) (authServer : Option URL) :
    Except String Unit :=
  match apiKey with
  | none => .error "No API key provided"
  | some _ =>
    validateServer (authServer.getD { protocol := "https:", hostname := "login.edge.app" })

/-- The C10 claim statement: validateServer returns normally exactly for
localhost over http or https, or over https only a hostname made of zero or
more labels of letters, digits, underscore or hyphen followed by edge.app or
edgetest.app; and makeContext (given an apiKey) validates the authServer
with exactly this check before its other work. -/
def validateServerOK (url : URL) : Prop :=
  (validateServer url = .ok () ↔
    (url.hostname = "localhost" ∧ (url.protocol = "http:" ∨ url.protocol = "https:")) ∨
    (url.protocol = "https:" ∧ EdgeHost url.hostname.data)) ∧
  (∀ apiKey : String, makeContextValidate (some apiKey) (some url) = validateServer url)

/-- C10: validateServer accepts exactly localhost (http or https) and, over
https only, hostnames of zero or more label groups followed by edge.app or
edgetest.app; every other URL is rejected, and makeContext applies this
validation to its authServer. -/
theorem validateServer_spec (url : URL) : validateServerOK url := by
  constructor
  · unfold validateServer
    by_cases h1 : url.protocol = "http:" ∧ url.hostname = "localhost"
    · rw [if_pos h1]
      exact ⟨fun _ => Or.inl ⟨h1.2, Or.inl h1.1⟩, fun _ => rfl⟩
    · rw [if_neg h1]
      by_cases h2 : url.protocol = "https:" ∧
          (url.hostname = "localhost" ∨ hostMatch url.hostname.data = true)
      · rw [if_pos h2]
        refine ⟨fun _ => ?_, fun _ => rfl⟩
        rcases h2.2 with hl | hh
        · exact Or.inl ⟨hl, Or.inr h2.1⟩
        · exact Or.inr ⟨h2.1, (hostMatch_iff url.hostname.data).mp hh⟩
      · rw [if_neg h2]
        refine ⟨fun h => absurd h (by simp), fun h => ?_⟩
        rcases h with ⟨hl, hp | hp⟩ | ⟨hp, he⟩
        · exact absurd ⟨hp, hl⟩ h1
        · exact absurd ⟨hp, Or.inl hl⟩ h2
        · exact absurd ⟨hp, Or.inr ((hostMatch_iff url.hostname.data).mpr he)⟩ h2
  · intro apiKey
    rfl

/-- C10 witness: the claim statement on the default login server URL. -/
theorem validateServer_spec_witness :
    validateServerOK { protocol := "https:", hostname := "login.edge.app" } :=
  validateServer_spec { protocol := "https:", hostname := "login.edge.app" }
